import Mathlib

/- Shallow embedding of VCFannotator.py: a VCF annotation pipeline that
parses variant lines, expands multi-allelic records into one row per
alternate allele (rewriting the FREQ info key per allele), loads rows into
a store in batches, and left-joins a subject store against an annotation
store with a flip-tolerant allele match predicate. Strings are modelled as
lists of characters; Python exceptions become an explicit error type. -/

namespace VCFannotator

abbrev Str := List Char

/-- Python str.strip removes these whitespace characters from both ends. -/
def isPySpace (c : Char) : Bool :=
  c = ' ' || c = '\t' || c = '\n' || c = '\r' || c = '\x0b' || c = '\x0c'

/-- Embedding of record.strip(). -/
def pyStrip (s : Str) : Str :=
  ((s.dropWhile isPySpace).reverse.dropWhile isPySpace).reverse

/-- Embedding of re.sub applied to the alt field: every star becomes a dot. -/
def starToDot (s : Str) : Str :=
  s.map fun c => if c = '*' then '.' else c

/-- The distinct failure modes of the Python code: the named ValueError
raises plus the runtime errors a malformed FREQ group can trigger
(tuple-unpacking mismatch on the colon split, index out of range). -/
inductive PyErr where
  | malformedHeader
  | malformedRecord
  | invalidFrequencyData
  | invalidInfoField
  | unpackMismatch
  | indexOutOfRange
  | noSampleData
deriving DecidableEq

instance {ε α : Type} [DecidableEq ε] [DecidableEq α] : DecidableEq (Except ε α) := fun x y =>
  match x, y with
  | .error e, .error f =>
    if h : e = f then .isTrue (congrArg Except.error h)
    else .isFalse fun he => h (Except.error.inj he)
  | .ok a, .ok b =>
    if h : a = b then .isTrue (congrArg Except.ok h)
    else .isFalse fun he => h (Except.ok.inj he)
  | .error _, .ok _ => .isFalse fun he => Except.noConfusion he
  | .ok _, .error _ => .isFalse fun he => Except.noConfusion he

/-- The VCFrec class after construction: all fields of the parsed line. -/
structure VCFrec where
  chrom : Str
  pos : Str
  snp_id : Str
  ref : Str
  alt : List Str
  qual : Str
  filter : Str
  info : Str
  format : Str
  samples : List Str
deriving DecidableEq

/-- Embedding of the VCFrec constructor: reject comment lines, strip, split
on tabs, require more than seven fields, normalize stars in the alt field,
split alternates on commas, and take format plus samples only when more
than nine fields are present. -/
def VCFrec.parse (record : Str) : Except PyErr VCFrec :=
  if record.head? = some '#' then
    .error .malformedHeader
  else
    match (pyStrip record).splitOn '\t' with
    | c :: p :: i :: rf :: a :: q :: fl :: inf :: rest =>
      let fs := if rest.length > 1 then (rest.headD [], rest.tail) else (([] : Str), ([] : List Str))
      .ok { chrom := c, pos := p, snp_id := i, ref := rf,
            alt := (starToDot a).splitOn ',',
            qual := q, filter := fl, info := inf,
            format := fs.1, samples := fs.2 }
    | _ => .error .malformedRecord

/-- Embedding of VCFrec.get_string: rejoin the eight fixed fields with tabs,
then append format and the tab-joined samples when format is nonempty,
failing when format is present without samples. -/
def VCFrec.get_string (r : VCFrec) : Except PyErr Str :=
  let record := List.intercalate ['\t']
    [r.chrom, r.pos, r.snp_id, r.ref, List.intercalate [','] r.alt, r.qual, r.filter, r.info]
  if r.format.length ≠ 0 then
    if r.samples.length ≠ 0 then
      .ok (record ++ '\t' :: r.format ++ '\t' :: List.intercalate ['\t'] r.samples)
    else
      .error .noSampleData
  else
    .ok record

/-- One attempt of the regex FREQ=([^;]+) at the current position: if the
text starts with the literal FREQ= followed by at least one character other
than a semicolon, return the maximal such run and the remaining suffix. -/
def freqHere (s : Str) : Option (Str × Str) :=
  match s with
  | 'F' :: 'R' :: 'E' :: 'Q' :: '=' :: t =>
    let grp := t.takeWhile (fun c => c ≠ ';')
    if grp.length = 0 then none else some (grp, t.dropWhile (fun c => c ≠ ';'))
  | _ => none

/-- Embedding of re.search for FREQ=([^;]+): scan left to right for the
first match, returning the text before the match, the captured group, and
the text after the match. -/
def findFreq : Str → Option (Str × Str × Str)
  | [] => none
  | c :: rest =>
    match freqHere (c :: rest) with
    | some (g, suf) => some ([], g, suf)
    | none =>
      match findFreq rest with
      | some (p, g, suf) => some (c :: p, g, suf)
      | none => none

/-- Embedding of re.sub for FREQ=[^;]+: replace every nonoverlapping match
with the replacement text. -/
def substFreqAll (repl : Str) : Str → Str
  | [] => []
  | 'F' :: 'R' :: 'E' :: 'Q' :: '=' :: t =>
    if (t.takeWhile (fun c => c ≠ ';')).length = 0 then
      'F' :: substFreqAll repl ('R' :: 'E' :: 'Q' :: '=' :: t)
    else
      repl ++ substFreqAll repl (t.dropWhile (fun c => c ≠ ';'))
  | c :: rest => c :: substFreqAll repl rest
termination_by s => s.length
decreasing_by
  · simp only [List.length_cons]
    omega
  · have h : (t.dropWhile (fun c => c ≠ ';')).length ≤ t.length :=
      (List.dropWhile_sublist _).length_le
    simp only [List.length_cons]
    omega
  · simp only [List.length_cons]
    omega

/-- The loop body of mod_info_freq over the pipe-separated population
groups: split each group on the colon into exactly a version and a
frequency list, check the list length against the allele count, keep the
reference frequency and the frequency of allele k, and accumulate the
rebuilt groups separated by pipes. -/
def modFreqLoop (nAlleles : Nat) (k : Nat) : List Str → Str → Except PyErr Str
  | [], acc => .ok acc
  | g :: gs, acc =>
    match g.splitOn ':' with
    | [freq_ver, freq_set] =>
      let freq_array := freq_set.splitOn ','
      if freq_array.length < 2 ∨ freq_array.length ≠ nAlleles + 1 then
        .error .invalidFrequencyData
      else
        match freq_array.get? 0, freq_array.get? k with
        | some ref_freq, some alt_freq =>
          let piece := freq_ver ++ ':' :: ref_freq ++ ',' :: alt_freq
          if acc.length ≠ 0 then
            modFreqLoop nAlleles k gs (acc ++ '|' :: piece)
          else
            modFreqLoop nAlleles k gs ("FREQ=".toList ++ piece)
        | _, _ => .error .indexOutOfRange
    | _ => .error .unpackMismatch

/-- Embedding of VCFrec.mod_info_freq: when the info field has no FREQ
match the info is returned unchanged, otherwise the rebuilt FREQ text is
substituted for every FREQ match in the info. -/
def VCFrec.mod_info_freq (r : VCFrec) (k : Nat) : Except PyErr Str :=
  match findFreq r.info with
  | none => .ok r.info
  | some (_, freq_group, _) =>
    match modFreqLoop r.alt.length k (freq_group.splitOn '|') [] with
    | .error e => .error e
    | .ok mod_freq => .ok (substFreqAll mod_freq r.info)

/-- One normalized row as built by VCFrec.get_array, before the record
number is prepended by the loader. -/
structure DataRow where
  n_alt : Nat
  chrom : Str
  pos : Str
  snp_id : Str
  ref : Str
  alt : Str
  qual : Str
  filter : Str
  info : Str
  format : Str
  samples : Str
deriving DecidableEq

/-- The row built for allele index k with single alternate a and info text. -/
def mkRow (r : VCFrec) (k : Nat) (a : Str) (inf : Str) : DataRow :=
  { n_alt := k, chrom := r.chrom, pos := r.pos, snp_id := r.snp_id, ref := r.ref,
    alt := a, qual := r.qual, filter := r.filter, info := inf,
    format := r.format, samples := List.intercalate ['\t'] r.samples }

/-- The loop of get_array over the alternate alleles of a multi-allelic
record, with k counting up from one. -/
def getArrayLoop (r : VCFrec) : Nat → List Str → Except PyErr (List DataRow)
  | _, [] => .ok []
  | k, a :: as =>
    match r.mod_info_freq k with
    | .error e => .error e
    | .ok inf =>
      match getArrayLoop r (k + 1) as with
      | .error e => .error e
      | .ok rest => .ok (mkRow r k a inf :: rest)

/-- Embedding of VCFrec.get_array: multi-allelic records get one row per
alternate with rewritten info, single-allele records get one row with the
info passed through unchanged. -/
def VCFrec.get_array (r : VCFrec) : Except PyErr (List DataRow) :=
  if r.alt.length > 1 then
    getArrayLoop r 1 r.alt
  else
    match r.alt.get? 0 with
    | none => .error .indexOutOfRange
    | some a0 => .ok [mkRow r 1 a0 r.info]

/-- Embedding of VCFrec.add_info: append a key=value pair to the info,
failing on an empty key or value. -/
def VCFrec.add_info (r : VCFrec) (key value : Str) : Except PyErr Str :=
  if key.length ≠ 0 ∧ value.length ≠ 0 then
    .ok ((r.info.reverse.dropWhile (fun c => c = ';')).reverse ++ ';' :: key ++ '=' :: value)
  else
    .error .invalidInfoField

/-- A stored row: the originating record number prepended by the loader. -/
structure DBRow where
  n_rec : Nat
  row : DataRow
deriving DecidableEq

/-- Embedding of the loop of VCF.load2db: before each line, flush the
accumulated rows as a batch once they exceed the chunk size; strip the
line; skip it unless it is nonempty and starts with a character other than
the hash; otherwise parse it, count the record, normalize it and append
the rows; after the stream, flush any nonempty remainder. The store is the
list of inserted batches. -/
def loadLoop (chunk : Nat) :
    List Str → Nat → List DBRow → List (List DBRow) → Except PyErr (Nat × List (List DBRow))
  | [], n, data, store =>
    .ok (n, if data.length ≠ 0 then store ++ [data] else store)
  | line :: rest, n, data, store =>
    let fl := if data.length > chunk then (([] : List DBRow), store ++ [data]) else (data, store)
    match (pyStrip line).head? with
    | none => loadLoop chunk rest n fl.1 fl.2
    | some c =>
      if c = '#' then
        loadLoop chunk rest n fl.1 fl.2
      else
        match VCFrec.parse (pyStrip line) with
        | .error e => .error e
        | .ok rec =>
          match rec.get_array with
          | .error e => .error e
          | .ok rows =>
            loadLoop chunk rest (n + 1) (fl.1 ++ rows.map (fun dr => ⟨n + 1, dr⟩)) fl.2

/-- Embedding of VCF.load2db on a list of input lines: returns the record
count and the batches inserted into the store. -/
def load2db (chunk : Nat) (lines : List Str) : Except PyErr (Nat × List (List DBRow)) :=
  loadLoop chunk lines 0 [] []

/-- The final contents of the store: the batches in insertion order,
concatenated. -/
def flattenLoad : Except PyErr (Nat × List (List DBRow)) → Except PyErr (Nat × List DBRow)
  | .error e => .error e
  | .ok (n, batches) => .ok (n, batches.flatten)

/-- The ON clause of the join in VCF.annotation2csv: positions and
chromosomes equal, and the allele pair equal either directly or with ref
and alt exchanged. -/
def matchPred (s a : DBRow) : Bool :=
  s.row.pos == a.row.pos && s.row.chrom == a.row.chrom &&
    ((s.row.ref == a.row.ref && s.row.alt == a.row.alt) ||
     (s.row.ref == a.row.alt && s.row.alt == a.row.ref))

/-- The LEFT JOIN of the subject store with the annotation store: each
subject row paired with every matching annotation row in store order, or
with none when nothing matches. -/
def joinRows (subj ann : List DBRow) : List (DBRow × Option DBRow) :=
  subj.flatMap fun s =>
    match ann.filter (fun a => matchPred s a) with
    | [] => [(s, none)]
    | ms => ms.map fun a => (s, some a)

/-- The ORDER BY key of the join: record number, then allele index. -/
def rowLe (x y : DBRow × Option DBRow) : Bool :=
  x.1.n_rec < y.1.n_rec || (x.1.n_rec == y.1.n_rec && x.1.row.n_alt ≤ y.1.row.n_alt)

/-- The result set of the join query, ordered by record number and allele
index. -/
def joinResult (subj ann : List DBRow) : List (DBRow × Option DBRow) :=
  (joinRows subj ann).mergeSort rowLe

/-- One value of a result row as seen by the output writer: an SQL NULL, an
integer column or a text column. -/
inductive Cell where
  | null : Cell
  | int : Nat → Cell
  | text : Str → Cell
deriving DecidableEq

/-- Embedding of str(field) in the output writer: None prints as the four
letters None, integers in decimal, text as itself. -/
def Cell.pyStr : Cell → Str
  | .null => "None".toList
  | .int n => (Nat.repr n).toList
  | .text s => s

/-- Embedding of the anchored substitution applied to every printed field:
a field whose text is exactly None is replaced by the missing marker, a
backslash followed by N (the anchored pattern also matches when a single
trailing newline follows). -/
def renderField (s : Str) : Str :=
  if s = "None".toList then "\\N".toList
  else if s = "None\n".toList then "\\N\n".toList
  else s

/-- The sixteen cells of one output row: the twelve subject columns
followed by the four annotation columns, which are NULL when the subject
row had no match. -/
def rowCells (s : DBRow) (oa : Option DBRow) : List Cell :=
  [.int s.n_rec, .int s.row.n_alt, .text s.row.chrom, .text s.row.pos,
   .text s.row.snp_id, .text s.row.ref, .text s.row.alt, .text s.row.qual,
   .text s.row.filter, .text s.row.info, .text s.row.format, .text s.row.samples] ++
  match oa with
  | none => [.null, .null, .null, .null]
  | some a => [.text a.row.snp_id, .text a.row.ref, .text a.row.alt, .text a.row.info]

/-- One line written by VCF.annotation2csv: the rendered cells joined by
tabs. -/
def renderRow (s : DBRow) (oa : Option DBRow) : Str :=
  List.intercalate ['\t'] ((rowCells s oa).map fun cl => renderField cl.pyStr)

/-- Embedding of VCF.annotation2csv on two store contents: the rendered
output lines, without the fixed header line. -/
def annotation2csv (subj ann : List DBRow) : List Str :=
  (joinResult subj ann).map fun pr => renderRow pr.1 pr.2

/-- The joined output produced from a load result and a given annotation
store: load failures propagate. -/
def outputOfLoad (res : Except PyErr (Nat × List DBRow)) (ann : List DBRow) :
    Except PyErr (List Str) :=
  match res with
  | .error e => .error e
  | .ok (_, subj) => .ok (annotation2csv subj ann)

/-- The unbatched reference loader used to state batch invariance: same
skipping, parsing and normalization as loadLoop, but rows accumulate into
one flat list with no chunked flushes. -/
def loadSimple : List Str → Nat → List DBRow → Except PyErr (Nat × List DBRow)
  | [], n, acc => .ok (n, acc)
  | line :: rest, n, acc =>
    match (pyStrip line).head? with
    | none => loadSimple rest n acc
    | some c =>
      if c = '#' then
        loadSimple rest n acc
      else
        match VCFrec.parse (pyStrip line) with
        | .error e => .error e
        | .ok rec =>
          match rec.get_array with
          | .error e => .error e
          | .ok rows => loadSimple rest (n + 1) (acc ++ rows.map fun dr => ⟨n + 1, dr⟩)

/-- The population groups of the first FREQ match of an info string: empty
when there is no match. -/
def freqGroups (info : Str) : List Str :=
  match findFreq info with
  | none => []
  | some (_, val, _) => val.splitOn '|'

/-- A population group whose colon split is a version and a frequency list
of exactly n + 1 comma-separated entries. -/
def goodGroup (n : Nat) (g : Str) : Bool :=
  match g.splitOn ':' with
  | [_, s] => (s.splitOn ',').length == n + 1
  | _ => false

/-- A population group whose frequency list has fewer than two entries or a
length other than n + 1: the condition the source rejects with the
invalid-frequency-data error. -/
def badLenGroup (n : Nat) (g : Str) : Bool :=
  match g.splitOn ':' with
  | [_, s] =>
    decide ((s.splitOn ',').length < 2) || decide ((s.splitOn ',').length ≠ n + 1)
  | _ => false

/-- Every population group of the info (if any) is well formed for a record
with this allele count. -/
def wellFormedFreq (r : VCFrec) : Bool :=
  (freqGroups r.info).all (goodGroup r.alt.length)

/-- Every population group of the info (if any) splits on the colon into
exactly a version and a frequency list. -/
def colonWF (info : Str) : Bool :=
  (freqGroups info).all fun g => (g.splitOn ':').length == 2

/-- Some population group of the info has a frequency list of bad length. -/
def hasBadFreq (r : VCFrec) : Bool :=
  (freqGroups r.info).any (badLenGroup r.alt.length)

/-- The rewriting the specification states for one population group and
allele index k: keep the version, the reference frequency and the
frequency of allele k. -/
def rewriteGroup (k : Nat) (g : Str) : Str :=
  match g.splitOn ':' with
  | [v, s] => v ++ ':' :: (s.splitOn ',').getD 0 [] ++ ',' :: (s.splitOn ',').getD k []
  | _ => []

/-- The rebuilt FREQ text for allele index k: every group rewritten, the
groups reassembled with pipes. -/
def modFreqStr (k : Nat) (val : Str) : Str :=
  "FREQ=".toList ++ List.intercalate ['|'] ((val.splitOn '|').map (rewriteGroup k))

/-- The info the specification expects for allele index k: unmodified when
no FREQ match exists, otherwise the rebuilt FREQ text substituted for the
FREQ matches. -/
def expectedInfo (r : VCFrec) (k : Nat) : Str :=
  match findFreq r.info with
  | none => r.info
  | some (_, val, _) => substFreqAll (modFreqStr k val) r.info

/-- The rows the specification expects from normalizing a multi-allelic
record: one row per alternate allele, allele indices counting from one. -/
def c1ExpectedRows (r : VCFrec) : List DataRow :=
  (List.range r.alt.length).map fun j => mkRow r (j + 1) (r.alt.getD j []) (expectedInfo r (j + 1))

/-- A multi-allelic record carrying the FREQ example of the specification. -/
def w1rec : VCFrec :=
  ⟨"chr1".toList, "100".toList, ".".toList, "A".toList, ["G".toList, "T".toList],
   ".".toList, ".".toList, "FREQ=POP:0.5,0.3,0.2".toList, [], []⟩

/-- A multi-allelic record whose FREQ group has no colon at all. -/
def cx4rec : VCFrec :=
  ⟨"chr1".toList, "100".toList, ".".toList, "A".toList, ["G".toList, "T".toList],
   ".".toList, ".".toList, "FREQ=ABC".toList, [], []⟩

/-- A multi-allelic record whose FREQ group has two entries instead of
three. -/
def w4rec : VCFrec :=
  ⟨"chr1".toList, "100".toList, ".".toList, "A".toList, ["G".toList, "T".toList],
   ".".toList, ".".toList, "FREQ=POP:0.5,0.3".toList, [], []⟩

/-- A single-allele record with a FREQ entry that would be malformed for
any rewriting. -/
def w5rec : VCFrec :=
  ⟨"chr1".toList, "100".toList, ".".toList, "A".toList, ["G".toList],
   ".".toList, ".".toList, "FREQ=ABC".toList, [], []⟩

/-- An input line whose alt field holds the historic wildcard star. -/
def cx7line : Str := "c\t1\t.\tA\t*\t.\t.\ti".toList

/-- The record the parser produces from that line: the star became a dot. -/
def cx7rec : VCFrec :=
  ⟨"c".toList, "1".toList, ".".toList, "A".toList, [".".toList],
   ".".toList, ".".toList, "i".toList, [], []⟩

/-- The line the serializer produces from that record. -/
def cx7out : Str := "c\t1\t.\tA\t.\t.\t.\ti".toList

/-- A subject store row at chr1 position 100 with alleles A and G. -/
def cx2subj : DBRow :=
  ⟨1, ⟨1, "chr1".toList, "100".toList, ".".toList, "A".toList, "G".toList,
      ".".toList, ".".toList, "i".toList, [], []⟩⟩

/-- A first matching annotation row, with the alleles flipped. -/
def cx2ann1 : DBRow :=
  ⟨1, ⟨1, "chr1".toList, "100".toList, "rs1".toList, "G".toList, "A".toList,
      ".".toList, ".".toList, "a1".toList, [], []⟩⟩

/-- A second matching annotation row, with the alleles in direct
orientation. -/
def cx2ann2 : DBRow :=
  ⟨2, ⟨1, "chr1".toList, "100".toList, "rs2".toList, "A".toList, "G".toList,
      ".".toList, ".".toList, "a2".toList, [], []⟩⟩

/-- A plain eight-field input line. -/
def w6line : Str := "c\t1\t.\tA\tG\tq\tf\tk=v".toList

/-- An eleven-field input line with format and two sample columns. -/
def w7line : Str := "c\t1\trs\tA\tG\tq\tf\ti\tGT\ts1\ts2".toList

/-- A subject store row whose reference field holds the literal text None. -/
def cx10s : DBRow :=
  ⟨1, ⟨1, "chr1".toList, "100".toList, ".".toList, "None".toList, "G".toList,
      ".".toList, ".".toList, "i".toList, [], []⟩⟩

theorem intercalate_cons_flatten (sep : Char) (x : Str) (l : List Str) :
    List.intercalate [sep] (x :: l) = x ++ (l.map fun b => sep :: b).flatten := by
  induction l generalizing x with
  | nil => simp [List.intercalate]
  | cons y l ih =>
    have h2 : List.intercalate [sep] (x :: y :: l) = x ++ sep :: List.intercalate [sep] (y :: l) := by
      simp [List.intercalate]
    rw [h2, ih]
    simp

theorem intercalate_cons_of_ne_nil (sep : Char) (x : Str) (l : List Str) (h : l ≠ []) :
    List.intercalate [sep] (x :: l) = x ++ sep :: List.intercalate [sep] l := by
  cases l with
  | nil => exact absurd rfl h
  | cons y t => simp [List.intercalate]

theorem intercalate_append_of_ne_nil (sep : Char) (xs ys : List Str) (hx : xs ≠ []) (hy : ys ≠ []) :
    List.intercalate [sep] (xs ++ ys) =
      List.intercalate [sep] xs ++ sep :: List.intercalate [sep] ys := by
  induction xs with
  | nil => exact absurd rfl hx
  | cons x t ih =>
    cases t with
    | nil => simpa [List.intercalate] using intercalate_cons_of_ne_nil sep x ys hy
    | cons z zs =>
      rw [List.cons_append, intercalate_cons_of_ne_nil sep x ((z :: zs) ++ ys) (by simp),
        ih (by simp), intercalate_cons_of_ne_nil sep x (z :: zs) (by simp)]
      simp

theorem starToDot_eq_self {s : Str} (h : '*' ∉ s) : starToDot s = s := by
  unfold starToDot
  induction s with
  | nil => rfl
  | cons c t ih =>
    simp only [List.mem_cons, not_or] at h
    simp only [List.map_cons]
    rw [if_neg fun hc => h.1 hc.symm, ih h.2]

theorem flattenLoad_loadLoop (chunk : Nat) (lines : List Str) :
    ∀ (n : Nat) (data : List DBRow) (store : List (List DBRow)),
      flattenLoad (loadLoop chunk lines n data store) = loadSimple lines n (store.flatten ++ data) := by
  induction lines with
  | nil =>
    intro n data store
    simp only [loadLoop, loadSimple, flattenLoad]
    split
    · simp
    · next h =>
      have hd : data = [] := by simpa using h
      simp [hd]
  | cons line rest ih =>
    intro n data store
    by_cases hflush : data.length > chunk
    all_goals {
      simp only [loadLoop, hflush, if_pos, if_neg, reduceIte]
      cases hh : (pyStrip line).head? with
      | none =>
        simp only [loadSimple, hh]
        rw [ih]
        try simp
      | some c =>
        by_cases hc : c = '#'
        · simp only [loadSimple, hh, if_pos hc]
          rw [ih]
          try simp
        · simp only [loadSimple, hh, if_neg hc]
          cases hp : VCFrec.parse (pyStrip line) with
          | error e => simp [hp, flattenLoad]
          | ok rec =>
            cases hg : rec.get_array with
            | error e => simp [hp, hg, flattenLoad]
            | ok rows =>
              simp only [hp, hg]
              rw [ih]
              simp
    }

/-- C3: two rows match exactly when their positions and chromosomes are
equal and the allele pair agrees either directly or with reference and
alternate exchanged between the two rows; in particular allele orientation
may be flipped. -/
theorem C3_match_predicate (s a : DBRow) :
    matchPred s a = true ↔
      (s.row.pos = a.row.pos ∧ s.row.chrom = a.row.chrom ∧
        ((s.row.ref = a.row.ref ∧ s.row.alt = a.row.alt) ∨
         (s.row.ref = a.row.alt ∧ s.row.alt = a.row.ref))) := by
  simp [matchPred, and_assoc]

/-- C5: a record with exactly one alternate allele normalizes to exactly
one row, with allele index one and the info passed through unchanged. -/
theorem C5_single_allele_passthrough (r : VCFrec) (h : r.alt.length = 1) :
    r.get_array = .ok [mkRow r 1 (r.alt.headD []) r.info] := by
  rcases halt : r.alt with _ | ⟨a, _ | ⟨b, t2⟩⟩
  · rw [halt] at h
    simp at h
  · simp [VCFrec.get_array, halt]
  · rw [halt] at h
    simp at h

/-- C5 witness: a concrete single-allele record with a FREQ entry that
would be malformed for rewriting still passes its info through. -/
theorem C5_witness :
    w5rec.alt.length = 1 ∧ w5rec.get_array = .ok [mkRow w5rec 1 (w5rec.alt.headD []) w5rec.info] :=
  ⟨by decide, C5_single_allele_passthrough w5rec (by decide)⟩

/-- C8: the final store contents and so the joined output do not depend on
the insert chunk size. -/
theorem C8_chunk_size_invariance (c1 c2 : Nat) (lines : List Str) (ann : List DBRow) :
    flattenLoad (load2db c1 lines) = flattenLoad (load2db c2 lines) ∧
    outputOfLoad (flattenLoad (load2db c1 lines)) ann =
      outputOfLoad (flattenLoad (load2db c2 lines)) ann := by
  have h1 : flattenLoad (load2db c1 lines) = loadSimple lines 0 [] := by
    simpa using flattenLoad_loadLoop c1 lines 0 [] []
  have h2 : flattenLoad (load2db c2 lines) = loadSimple lines 0 [] := by
    simpa using flattenLoad_loadLoop c2 lines 0 [] []
  exact ⟨h1.trans h2.symm, by rw [h1, h2]⟩

/-- C9: a line that is empty after stripping is skipped by the loader
exactly like a comment line: it is not parsed, adds no rows, and does not
advance the record count. -/
theorem C9_blank_line_skipped (c : Nat) (line : Str) (rest : List Str) (n : Nat)
    (data : List DBRow) (store : List (List DBRow)) (h : pyStrip line = []) :
    loadLoop c (line :: rest) n data store = loadLoop c (['#'] :: rest) n data store ∧
    flattenLoad (loadLoop c (line :: rest) n data store) =
      flattenLoad (loadLoop c rest n data store) := by
  have hh : (pyStrip line).head? = none := by rw [h]; rfl
  have hsharp : (pyStrip ['#']).head? = some '#' := by decide
  constructor
  · simp [loadLoop, hh, hsharp]
  · rw [flattenLoad_loadLoop, flattenLoad_loadLoop]
    simp [loadSimple, hh]

/-- C9 witness: a two-space line before one data line is skipped. -/
theorem C9_witness :
    pyStrip "  ".toList = [] ∧
    loadLoop 1 ["  ".toList, w6line] 0 [] [] = loadLoop 1 [['#'], w6line] 0 [] [] ∧
    flattenLoad (loadLoop 1 ["  ".toList, w6line] 0 [] []) =
      flattenLoad (loadLoop 1 [w6line] 0 [] []) :=
  ⟨by decide,
   (C9_blank_line_skipped 1 "  ".toList [w6line] 0 [] [] (by decide)).1,
   (C9_blank_line_skipped 1 "  ".toList [w6line] 0 [] [] (by decide)).2⟩

/-- C10: any output cell whose printed text is exactly None is rendered as
the backslash-N missing marker, identically to a NULL annotation cell,
whatever column it sits in. -/
theorem C10_none_rendered_missing (s : DBRow) (oa : Option DBRow) (cell : Cell)
    (hmem : cell ∈ rowCells s oa) (hstr : cell.pyStr = "None".toList) :
    renderField cell.pyStr = "\\N".toList ∧
    renderField cell.pyStr = renderField (Cell.pyStr .null) := by
  rw [hstr]
  exact ⟨by decide, by decide⟩

/-- C10 witness: a subject row whose reference field holds the text None is
rendered exactly like a missing annotation field. -/
theorem C10_witness :
    Cell.text "None".toList ∈ rowCells cx10s none ∧
    (Cell.text "None".toList).pyStr = "None".toList ∧
    renderField (Cell.text "None".toList).pyStr = "\\N".toList ∧
    renderField (Cell.text "None".toList).pyStr = renderField (Cell.pyStr .null) :=
  ⟨by decide, by decide,
   (C10_none_rendered_missing cx10s none (Cell.text "None".toList) (by decide) (by decide)).1,
   (C10_none_rendered_missing cx10s none (Cell.text "None".toList) (by decide) (by decide)).2⟩

theorem joinRows_countP_eq (subj ann : List DBRow) (s : DBRow) :
    (joinRows subj ann).countP (fun pr => pr.1 == s) =
      subj.count s * (if ann.countP (matchPred s) = 0 then 1 else ann.countP (matchPred s)) := by
  induction subj with
  | nil => simp [joinRows]
  | cons x subj ih =>
    simp only [joinRows, List.flatMap_cons, List.countP_append] at ih ⊢
    cases hf : ann.filter (fun a => matchPred x a) with
    | nil =>
      simp only [hf]
      by_cases hxs : x = s
      · subst hxs
        have hcnt : ann.countP (matchPred x) = 0 := by
          rw [List.countP_eq_length_filter, hf]
          rfl
        simp [ih, hcnt, List.count_cons, List.countP_cons]
        omega
      · have hx : (x == s) = false := by simpa using hxs
        simp [ih, List.count_cons, List.countP_cons, hx]
    | cons m ms =>
      simp only [hf]
      have hlen : (m :: ms).length = ann.countP (matchPred x) := by
        rw [List.countP_eq_length_filter, hf]
      by_cases hxs : x = s
      · subst hxs
        have hpos : ann.countP (matchPred x) ≠ 0 := by
          rw [← hlen]
          simp
        have hmap : ((m :: ms).map fun a => (x, (some a : Option DBRow))).countP
            (fun pr => pr.1 == x) = (m :: ms).length := by
          simp [List.countP_map, Function.comp]
        rw [hmap, hlen, ih, List.count_cons, if_neg hpos]
        simp
        ring
      · have hx : (x == s) = false := by simpa using hxs
        have hmap : ((m :: ms).map fun a => (x, (some a : Option DBRow))).countP
            (fun pr => pr.1 == s) = 0 := by
          simp [List.countP_map, Function.comp, hx]
        rw [hmap, ih, List.count_cons, hx]
        simp

theorem mem_none_joinRows_iff (subj ann : List DBRow) (s : DBRow) :
    (s, (none : Option DBRow)) ∈ joinRows subj ann ↔
      s ∈ subj ∧ ann.countP (matchPred s) = 0 := by
  induction subj with
  | nil => simp [joinRows]
  | cons x subj ih =>
    simp only [joinRows, List.flatMap_cons, List.mem_append] at ih ⊢
    cases hf : ann.filter (fun a => matchPred x a) with
    | nil =>
      simp only [hf]
      constructor
      · rintro (h1 | h2)
        · simp only [List.mem_singleton, Prod.mk.injEq] at h1
          obtain ⟨h1a, -⟩ := h1
          subst h1a
          refine ⟨List.mem_cons_self _ _, ?_⟩
          rw [List.countP_eq_length_filter, hf]
          rfl
        · obtain ⟨hm, hc⟩ := ih.mp h2
          exact ⟨List.mem_cons_of_mem _ hm, hc⟩
      · rintro ⟨h1, h2⟩
        rcases List.mem_cons.mp h1 with h1 | h1
        · subst h1
          simp
        · exact Or.inr (ih.mpr ⟨h1, h2⟩)
    | cons m ms =>
      simp only [hf]
      constructor
      · rintro (h1 | h2)
        · simp at h1
        · obtain ⟨hm, hc⟩ := ih.mp h2
          exact ⟨List.mem_cons_of_mem _ hm, hc⟩
      · rintro ⟨h1, h2⟩
        rcases List.mem_cons.mp h1 with h1 | h1
        · exfalso
          subst h1
          have : ann.countP (matchPred s) = (m :: ms).length := by
            rw [List.countP_eq_length_filter, hf]
          simp [this] at h2
        · exact Or.inr (ih.mpr ⟨h1, h2⟩)

/-- C2 (amended): the join is a plain SQL left outer join, so a subject row
is emitted once per matching annotation row, and once with all annotation
fields absent when no annotation row matches; a subject row with several
matches is therefore emitted several times, not deduplicated to the first
match. -/
theorem C2_left_join_multiplicity (subj ann : List DBRow) (s : DBRow) :
    ((joinResult subj ann).countP fun pr => pr.1 == s) =
      subj.count s * (if ann.countP (matchPred s) = 0 then 1 else ann.countP (matchPred s)) ∧
    ((s, (none : Option DBRow)) ∈ joinResult subj ann ↔
      s ∈ subj ∧ ann.countP (matchPred s) = 0) := by
  have hp := List.mergeSort_perm (joinRows subj ann) rowLe
  constructor
  · rw [joinResult, List.Perm.countP_eq _ hp, joinRows_countP_eq]
  · rw [joinResult, hp.mem_iff, mem_none_joinRows_iff]

/-- C2 counterexample: one subject row matched by two annotation rows is
emitted twice in the joined output, so a subject row can be duplicated,
contrary to the claim that every subject row appears exactly once with
only the first match used. -/
theorem C2_counterexample :
    matchPred cx2subj cx2ann1 = true ∧ matchPred cx2subj cx2ann2 = true ∧
    ((joinResult [cx2subj] [cx2ann1, cx2ann2]).countP fun pr => pr.1 == cx2subj) = 2 := by
  refine ⟨by decide, by decide, ?_⟩
  rw [joinResult, List.Perm.countP_eq _ (List.mergeSort_perm _ _)]
  decide

theorem exists_eight_of_le_length {α : Type} {l : List α} (h : 8 ≤ l.length) :
    ∃ f0 f1 f2 f3 f4 f5 f6 f7 rest,
      l = f0 :: f1 :: f2 :: f3 :: f4 :: f5 :: f6 :: f7 :: rest := by
  rcases l with _ | ⟨f0, _ | ⟨f1, _ | ⟨f2, _ | ⟨f3, _ | ⟨f4, _ | ⟨f5, _ | ⟨f6, _ | ⟨f7, rest⟩⟩⟩⟩⟩⟩⟩⟩
  all_goals simp only [List.length_nil, List.length_cons] at h
  all_goals first
    | omega
    | exact ⟨f0, f1, f2, f3, f4, f5, f6, f7, rest, rfl⟩

/-- C6: parsing fails with the header error exactly on lines starting with
a hash, fails with the record error exactly when the stripped line has
fewer than eight tab-delimited fields, and otherwise succeeds with fields
zero to seven assigned to chromosome, position, identifier, reference,
alt (star-normalized and comma-split), quality, filter and info in that
order. -/
theorem C6_parse_characterization (line : Str) :
    (VCFrec.parse line = .error .malformedHeader ↔ line.head? = some '#') ∧
    (VCFrec.parse line = .error .malformedRecord ↔
      line.head? ≠ some '#' ∧ ((pyStrip line).splitOn '\t').length < 8) ∧
    (∀ c p i rf a q fl inf rest,
      line.head? ≠ some '#' →
      (pyStrip line).splitOn '\t' = c :: p :: i :: rf :: a :: q :: fl :: inf :: rest →
      ∃ rec, VCFrec.parse line = .ok rec ∧ rec.chrom = c ∧ rec.pos = p ∧ rec.snp_id = i ∧
        rec.ref = rf ∧ rec.alt = (starToDot a).splitOn ',' ∧ rec.qual = q ∧
        rec.filter = fl ∧ rec.info = inf) := by
  by_cases hh : line.head? = some '#'
  · refine ⟨by simp [VCFrec.parse, hh], by simp [VCFrec.parse, hh], ?_⟩
    intro c p i rf a q fl inf rest hne _
    exact absurd hh hne
  · by_cases h8 : ((pyStrip line).splitOn '\t').length < 8
    · have hform : VCFrec.parse line = .error .malformedRecord := by
        simp only [VCFrec.parse, if_neg hh]
        split
        · next c p i rf a q fl inf rest heq =>
          exfalso
          rw [heq] at h8
          simp only [List.length_cons] at h8
          omega
        · rfl
      refine ⟨?_, ?_, ?_⟩
      · rw [hform]
        simp [hh]
      · rw [hform]
        simp [hh, h8]
      · intro c p i rf a q fl inf rest hne heq
        rw [heq] at h8
        simp only [List.length_cons] at h8
        omega
    · push_neg at h8
      obtain ⟨f0, f1, f2, f3, f4, f5, f6, f7, rest, hsplit⟩ := exists_eight_of_le_length h8
      have hok : ∃ rec, VCFrec.parse line = .ok rec := by
        simp only [VCFrec.parse, if_neg hh, hsplit]
        exact ⟨_, rfl⟩
      obtain ⟨rec, hok⟩ := hok
      refine ⟨?_, ?_, ?_⟩
      · rw [hok]
        simp [hh]
      · rw [hok]
        constructor
        · intro hcontra
          simp at hcontra
        · rintro ⟨-, hlt⟩
          rw [hsplit] at hlt
          simp only [List.length_cons] at hlt
          omega
      · intro c p i rf a q fl inf rest' hne heq
        rw [hsplit] at heq
        simp only [List.cons.injEq] at heq
        obtain ⟨e0, e1, e2, e3, e4, e5, e6, e7, e8⟩ := heq
        subst e0
        subst e1
        subst e2
        subst e3
        subst e4
        subst e5
        subst e6
        subst e7
        simp only [VCFrec.parse, if_neg hh, hsplit]
        exact ⟨_, rfl, rfl, rfl, rfl, rfl, rfl, rfl, rfl, rfl⟩

/-- C6 witness: a concrete eight-field line parses with its fields placed
in order. -/
theorem C6_witness :
    (pyStrip w6line).splitOn '\t' =
      ["c".toList, "1".toList, ".".toList, "A".toList, "G".toList,
       "q".toList, "f".toList, "k=v".toList] ∧
    (∃ rec, VCFrec.parse w6line = .ok rec ∧ rec.chrom = "c".toList ∧ rec.pos = "1".toList ∧
      rec.snp_id = ".".toList ∧ rec.ref = "A".toList ∧
      rec.alt = (starToDot "G".toList).splitOn ',' ∧ rec.qual = "q".toList ∧
      rec.filter = "f".toList ∧ rec.info = "k=v".toList) :=
  ⟨by decide,
   (C6_parse_characterization w6line).2.2 "c".toList "1".toList ".".toList "A".toList
     "G".toList "q".toList "f".toList "k=v".toList [] (by decide) (by decide)⟩

/-- C7 (amended): parse followed by serialize reproduces the line
byte-for-byte provided the line carries no surrounding whitespace, its alt
field contains no star (the parser rewrites stars to dots), and the field
count is exactly eight, or at least ten with a nonempty format field (with
exactly nine fields the ninth is silently dropped; with an empty format
field the format and sample columns are dropped). -/
theorem C7_roundtrip_amended (line : Str) (h0 : pyStrip line = line)
    (h1 : line.head? ≠ some '#')
    (hstar : '*' ∉ (line.splitOn '\t').getD 4 [])
    (hlen : (line.splitOn '\t').length = 8 ∨
      (10 ≤ (line.splitOn '\t').length ∧ (line.splitOn '\t').getD 8 [] ≠ [])) :
    ∃ rec, VCFrec.parse line = .ok rec ∧ rec.get_string = .ok line := by
  have hle8 : 8 ≤ (line.splitOn '\t').length := by
    rcases hlen with h | ⟨h, -⟩ <;> omega
  obtain ⟨f0, f1, f2, f3, f4, f5, f6, f7, rest, hsplit⟩ := exists_eight_of_le_length hle8
  have hstar' : '*' ∉ f4 := by
    rw [hsplit] at hstar
    simpa using hstar
  have hs4 : starToDot f4 = f4 := starToDot_eq_self hstar'
  have hjoin4 : List.intercalate [','] (f4.splitOn ',') = f4 := List.intercalate_splitOn f4 ','
  have hline : List.intercalate ['\t'] (f0 :: f1 :: f2 :: f3 :: f4 :: f5 :: f6 :: f7 :: rest) =
      line := by
    rw [← hsplit]
    exact List.intercalate_splitOn line '\t'
  rcases hlen with hA | ⟨hB, hB8⟩
  · have hrest : rest = [] := by
      rw [hsplit] at hA
      simp only [List.length_cons] at hA
      have : rest.length = 0 := by omega
      exact List.length_eq_zero.mp this
    subst hrest
    refine ⟨⟨f0, f1, f2, f3, (starToDot f4).splitOn ',', f5, f6, f7, [], []⟩, ?_, ?_⟩
    · simp [VCFrec.parse, if_neg h1, h0, hsplit]
    · simp only [VCFrec.get_string, hs4, hjoin4]
      simp only [List.length_nil, ne_eq, not_true_eq_false, ite_false, if_neg]
      rw [hline]
  · have hr2 : 2 ≤ rest.length := by
      rw [hsplit] at hB
      simp only [List.length_cons] at hB
      omega
    rcases rest with _ | ⟨f8, _ | ⟨f9, rest2⟩⟩
    · simp at hr2
    · simp at hr2
    have hf8 : f8 ≠ [] := by
      rw [hsplit] at hB8
      simpa using hB8
    refine ⟨⟨f0, f1, f2, f3, (starToDot f4).splitOn ',', f5, f6, f7, f8, f9 :: rest2⟩, ?_, ?_⟩
    · simp [VCFrec.parse, if_neg h1, h0, hsplit]
    · have hf8len : f8.length ≠ 0 := by
        simpa [List.length_eq_zero] using hf8
      simp only [VCFrec.get_string, hs4, hjoin4, if_pos hf8len, List.length_cons, ne_eq]
      rw [if_pos (by simp)]
      rw [← hline]
      rw [show f0 :: f1 :: f2 :: f3 :: f4 :: f5 :: f6 :: f7 :: f8 :: f9 :: rest2 =
        [f0, f1, f2, f3, f4, f5, f6, f7] ++ (f8 :: f9 :: rest2) from rfl]
      rw [intercalate_append_of_ne_nil '\t' _ _ (by simp) (by simp),
        intercalate_cons_of_ne_nil '\t' f8 _ (by simp)]
      simp

/-- C7 counterexample: a line whose alt field is the star wildcard parses
successfully with format and samples both absent, but serializes to a
different line, because the star was normalized to a dot. -/
theorem C7_counterexample :
    pyStrip cx7line = cx7line ∧ cx7line.head? ≠ some '#' ∧
    VCFrec.parse cx7line = .ok cx7rec ∧ cx7rec.format = [] ∧ cx7rec.samples = [] ∧
    cx7rec.get_string = .ok cx7out ∧ cx7out ≠ cx7line := by
  refine ⟨by decide, by decide, by decide, by decide, by decide, ?_, by decide⟩
  decide

/-- C7 witness: an eleven-field line with format and samples round-trips
byte-for-byte. -/
theorem C7_witness :
    pyStrip w7line = w7line ∧ w7line.head? ≠ some '#' ∧
    '*' ∉ (w7line.splitOn '\t').getD 4 [] ∧
    (∃ rec, VCFrec.parse w7line = .ok rec ∧ rec.get_string = .ok w7line) :=
  ⟨by decide, by decide, by decide,
   C7_roundtrip_amended w7line (by decide) (by decide) (by decide)
     (Or.inr ⟨by decide, by decide⟩)⟩

theorem modFreqLoop_step (N k : Nat) (hk1 : 1 ≤ k) (hkN : k ≤ N) (g : Str) (gs : List Str) (acc : Str)
    (hg : goodGroup N g = true) :
    modFreqLoop N k (g :: gs) acc =
      modFreqLoop N k gs
        (if acc.length ≠ 0 then acc ++ '|' :: rewriteGroup k g
         else "FREQ=".toList ++ rewriteGroup k g) := by
  rcases hsp : g.splitOn ':' with _ | ⟨v, _ | ⟨s, _ | ⟨x, t⟩⟩⟩
  · simp [goodGroup, hsp] at hg
  · simp [goodGroup, hsp] at hg
  · simp only [goodGroup, hsp] at hg
    have hlen : (s.splitOn ',').length = N + 1 := by simpa using hg
    have hcond : ¬((s.splitOn ',').length < 2 ∨ (s.splitOn ',').length ≠ N + 1) := by
      rw [hlen]
      intro hor
      rcases hor with hor | hor
      · omega
      · exact hor rfl
    have h0 : (s.splitOn ',').get? 0 = some ((s.splitOn ',').getD 0 []) := by
      have hp : 0 < (s.splitOn ',').length := by omega
      simp [List.get?_eq_getElem?, List.getD_eq_getElem?_getD, List.getElem?_eq_getElem hp]
    have hk' : (s.splitOn ',').get? k = some ((s.splitOn ',').getD k []) := by
      have hp : k < (s.splitOn ',').length := by omega
      simp [List.get?_eq_getElem?, List.getD_eq_getElem?_getD, List.getElem?_eq_getElem hp]
    have hrg : rewriteGroup k g =
        v ++ ':' :: (s.splitOn ',').getD 0 [] ++ ',' :: (s.splitOn ',').getD k [] := by
      simp only [rewriteGroup, hsp]
    simp only [modFreqLoop, hsp, if_neg hcond, h0, hk', hrg]
    by_cases hacc : List.length acc ≠ 0 <;> simp [hacc]
  · simp [goodGroup, hsp] at hg

theorem modFreqLoop_ok (N k : Nat) (hk1 : 1 ≤ k) (hkN : k ≤ N) (gs : List Str) :
    ∀ (acc : Str), (∀ g ∈ gs, goodGroup N g = true) → acc ≠ [] →
      modFreqLoop N k gs acc =
        .ok (acc ++ (gs.map fun g => '|' :: rewriteGroup k g).flatten) := by
  induction gs with
  | nil =>
    intro acc _ _
    simp [modFreqLoop]
  | cons g gs ih =>
    intro acc hwf hacc
    have hlacc : acc.length ≠ 0 := by simpa [List.length_eq_zero] using hacc
    rw [modFreqLoop_step N k hk1 hkN g gs acc (hwf g (List.mem_cons_self _ _)), if_pos hlacc,
      ih _ (fun g' hg' => hwf g' (List.mem_cons_of_mem _ hg')) (by simp)]
    simp

theorem modFreqLoop_start (N k : Nat) (hk1 : 1 ≤ k) (hkN : k ≤ N) (gs : List Str)
    (hwf : ∀ g ∈ gs, goodGroup N g = true) (hne : gs ≠ []) :
    modFreqLoop N k gs [] =
      .ok ("FREQ=".toList ++ List.intercalate ['|'] (gs.map (rewriteGroup k))) := by
  rcases gs with _ | ⟨g, gs⟩
  · exact absurd rfl hne
  · rw [modFreqLoop_step N k hk1 hkN g gs [] (hwf g (List.mem_cons_self _ _))]
    rw [if_neg (by simp)]
    rcases hgs : gs with _ | ⟨g2, gs2⟩
    · simp [modFreqLoop, List.intercalate]
    · rw [← hgs, modFreqLoop_ok N k hk1 hkN gs _ (fun g' hg' => hwf g' (List.mem_cons_of_mem _ hg'))
        (by simp)]
      rw [List.map_cons, intercalate_cons_flatten '|' (rewriteGroup k g) (gs.map (rewriteGroup k))]
      simp only [List.map_map]
      rfl

theorem mod_info_freq_ok (r : VCFrec) (k : Nat) (hk1 : 1 ≤ k) (hkN : k ≤ r.alt.length)
    (hwf : wellFormedFreq r = true) :
    r.mod_info_freq k = .ok (expectedInfo r k) := by
  cases hf : findFreq r.info with
  | none => simp [VCFrec.mod_info_freq, expectedInfo, hf]
  | some pgs =>
    obtain ⟨pre, val, suf⟩ := pgs
    have hgroups : ∀ g ∈ val.splitOn '|', goodGroup r.alt.length g = true := by
      simp only [wellFormedFreq, freqGroups, hf, List.all_eq_true] at hwf
      exact hwf
    simp only [VCFrec.mod_info_freq, hf]
    rw [modFreqLoop_start r.alt.length k hk1 hkN _ hgroups (List.splitOnP_ne_nil _ _)]
    simp [expectedInfo, hf, modFreqStr]

theorem modFreqLoop_error_iff (N k : Nat) (hk1 : 1 ≤ k) (hkN : k ≤ N) (gs : List Str) :
    ∀ (acc : Str), (∀ g ∈ gs, (g.splitOn ':').length = 2) →
      (modFreqLoop N k gs acc = .error .invalidFrequencyData ↔
        gs.any (badLenGroup N) = true) := by
  induction gs with
  | nil =>
    intro acc _
    simp [modFreqLoop]
  | cons g gs ih =>
    intro acc hcol
    have hg2 := hcol g (List.mem_cons_self _ _)
    rcases hsp : g.splitOn ':' with _ | ⟨v, _ | ⟨s, _ | ⟨x, t⟩⟩⟩
    · rw [hsp] at hg2
      simp at hg2
    · rw [hsp] at hg2
      simp at hg2
    · by_cases hbad : badLenGroup N g = true
      · have hcond : (s.splitOn ',').length < 2 ∨ (s.splitOn ',').length ≠ N + 1 := by
          simp only [badLenGroup, hsp] at hbad
          simpa using hbad
        simp only [modFreqLoop, hsp, if_pos hcond]
        simp [List.any_cons, hbad]
      · rw [Bool.not_eq_true] at hbad
        have hgood : goodGroup N g = true := by
          simp only [badLenGroup, hsp] at hbad
          simp only [goodGroup, hsp]
          simp only [Bool.or_eq_false_iff, decide_eq_false_iff_not, not_lt,
            Decidable.not_not] at hbad
          simp [hbad.2]
        rw [modFreqLoop_step N k hk1 hkN g gs acc hgood]
        rw [ih _ fun g' hg' => hcol g' (List.mem_cons_of_mem _ hg')]
        simp [List.any_cons, hbad]
    · rw [hsp] at hg2
      simp at hg2

/-- C4 (amended): provided every population group of the FREQ value splits
on the colon into exactly a version and a frequency list, rewriting for an
allele index between one and the allele count fails with the
invalid-frequency-data error exactly when some group has a frequency list
with fewer than two entries or a length other than the allele count plus
one, and succeeds otherwise; without that proviso a colon-less group makes
rewriting fail with a tuple-unpacking error instead. -/
theorem C4_invalid_frequency_iff (r : VCFrec) (k : Nat) (hN : 1 < r.alt.length)
    (hk1 : 1 ≤ k) (hkN : k ≤ r.alt.length) (hcol : colonWF r.info = true) :
    (r.mod_info_freq k = .error .invalidFrequencyData ↔ hasBadFreq r = true) ∧
    (hasBadFreq r = false → r.mod_info_freq k = .ok (expectedInfo r k)) := by
  constructor
  · cases hf : findFreq r.info with
    | none =>
      simp [VCFrec.mod_info_freq, hasBadFreq, freqGroups, hf]
    | some pgs =>
      obtain ⟨pre, val, suf⟩ := pgs
      have hcol' : ∀ g ∈ val.splitOn '|', (g.splitOn ':').length = 2 := by
        simp only [colonWF, freqGroups, hf, List.all_eq_true] at hcol
        intro g hg
        simpa using hcol g hg
      have hiff := modFreqLoop_error_iff r.alt.length k hk1 hkN (val.splitOn '|') [] hcol'
      have hbad : hasBadFreq r = (val.splitOn '|').any (badLenGroup r.alt.length) := by
        simp only [hasBadFreq, freqGroups, hf]
      simp only [VCFrec.mod_info_freq, hf]
      rw [hbad, ← hiff]
      cases hloop : modFreqLoop r.alt.length k (val.splitOn '|') [] with
      | error e => simp [hloop]
      | ok m => simp [hloop]
  · intro hnone
    have hwf : wellFormedFreq r = true := by
      simp only [wellFormedFreq, List.all_eq_true]
      intro g hg
      have h2 : (g.splitOn ':').length = 2 := by
        simp only [colonWF, List.all_eq_true] at hcol
        simpa using hcol g hg
      have hb : badLenGroup r.alt.length g = false := by
        simp only [hasBadFreq, List.any_eq_false] at hnone
        simpa using hnone g hg
      rcases hsp : g.splitOn ':' with _ | ⟨v, _ | ⟨s, _ | ⟨x, t⟩⟩⟩
      · rw [hsp] at h2
        simp at h2
      · rw [hsp] at h2
        simp at h2
      · simp only [badLenGroup, hsp] at hb
        simp only [goodGroup, hsp]
        simp only [Bool.or_eq_false_iff, decide_eq_false_iff_not, not_lt,
          Decidable.not_not] at hb
        simp [hb.2]
      · rw [hsp] at h2
        simp at h2
    exact mod_info_freq_ok r k hk1 hkN hwf

/-- C4 counterexample: a FREQ group with no colon at all makes rewriting
fail with the tuple-unpacking error even though no group has a frequency
list of bad length, so rewriting neither raises invalid-frequency-data nor
succeeds, contrary to the claim as stated. -/
theorem C4_counterexample :
    1 < cx4rec.alt.length ∧
    findFreq cx4rec.info = some ([], "ABC".toList, []) ∧
    hasBadFreq cx4rec = false ∧
    cx4rec.mod_info_freq 1 = .error .unpackMismatch := by
  refine ⟨by decide, by decide, by decide, by decide⟩

/-- C4 witness: a two-allele record whose single FREQ group has two entries
instead of three fails with the invalid-frequency-data error. -/
theorem C4_witness :
    (1 < w4rec.alt.length ∧ 1 ≤ 1 ∧ 1 ≤ w4rec.alt.length ∧ colonWF w4rec.info = true) ∧
    (w4rec.mod_info_freq 1 = .error .invalidFrequencyData ↔ hasBadFreq w4rec = true) ∧
    hasBadFreq w4rec = true :=
  ⟨⟨by decide, by decide, by decide, by decide⟩,
   (C4_invalid_frequency_iff w4rec 1 (by decide) (by decide) (by decide) (by decide)).1,
   by decide⟩

theorem getArrayLoop_ok (r : VCFrec) (hwf : wellFormedFreq r = true) (as : List Str) :
    ∀ (start : Nat), 1 ≤ start → start + as.length ≤ r.alt.length + 1 →
      getArrayLoop r start as =
        .ok ((List.range as.length).map fun j =>
          mkRow r (start + j) (as.getD j []) (expectedInfo r (start + j))) := by
  induction as with
  | nil =>
    intro start _ _
    simp [getArrayLoop]
  | cons a as ih =>
    intro start h1 h2
    simp only [List.length_cons] at h2
    have hmod : r.mod_info_freq start = .ok (expectedInfo r start) :=
      mod_info_freq_ok r start h1 (by omega) hwf
    simp only [getArrayLoop, hmod]
    rw [ih (start + 1) (by omega) (by omega)]
    dsimp only [List.length_cons]
    rw [List.range_succ_eq_map, List.map_cons, List.map_map]
    have hhead : mkRow r start a (expectedInfo r start) =
        mkRow r (start + 0) ((a :: as).getD 0 []) (expectedInfo r (start + 0)) := by simp
    have htail : (List.range as.length).map
          (fun j => mkRow r (start + 1 + j) (as.getD j []) (expectedInfo r (start + 1 + j))) =
        (List.range as.length).map
          ((fun j => mkRow r (start + j) ((a :: as).getD j []) (expectedInfo r (start + j))) ∘
            Nat.succ) := by
      apply List.map_congr_left
      intro j _
      simp only [Function.comp_apply, List.getD_cons_succ, Nat.succ_eq_add_one]
      rw [show start + (j + 1) = start + 1 + j by omega]
    rw [hhead, htail]

/-- C1: a multi-allelic record whose FREQ groups are well formed normalizes
to exactly one row per alternate allele, allele indices counting from one,
and the info of the row for allele k carries, for every population group,
only the version, the reference frequency and the frequency of allele k,
with the groups reassembled by pipes and substituted for the FREQ text of
the original info; when the info has no FREQ match every row carries the
info unchanged. -/
theorem C1_multiallelic_freq_rewrite (r : VCFrec) (hN : 1 < r.alt.length)
    (hwf : wellFormedFreq r = true) :
    (c1ExpectedRows r).length = r.alt.length ∧
    r.get_array = .ok (c1ExpectedRows r) ∧
    (findFreq r.info = none → ∀ j, expectedInfo r j = r.info) := by
  refine ⟨by simp [c1ExpectedRows], ?_, ?_⟩
  · simp only [VCFrec.get_array, if_pos hN]
    rw [getArrayLoop_ok r hwf r.alt 1 le_rfl (by omega)]
    simp only [c1ExpectedRows]
    congr 1
    apply List.map_congr_left
    intro j _
    rw [Nat.add_comm 1 j]
  · intro hf j
    simp [expectedInfo, hf]

/-- C1 witness: the two-allele example record of the specification
normalizes to the expected two rewritten rows. -/
theorem C1_witness :
    1 < w1rec.alt.length ∧ wellFormedFreq w1rec = true ∧
    w1rec.get_array = .ok (c1ExpectedRows w1rec) :=
  ⟨by decide, by decide, (C1_multiallelic_freq_rewrite w1rec (by decide) (by decide)).2.1⟩

end VCFannotator
